import Mathlib

/-!
Verification of the segmented-file-uploader core of the nebula-sdk
repository (the `Uploader` class and its `utils` module).  The
definitions below are a shallow embedding of the JavaScript source:

* `GetSplitNum`, `SegmentRange`, `nextSgmentIndex` — the pure segment
  arithmetic (`utils.js` and `Uploader.nextSgmentIndex`);
* `txLoop` / `txWithGasAdjustment` — the gas-price escalation loop;
* `waitReceiptLoop` / `waitForReceipt` — transaction receipt polling;
* `uploadTaskLoop` / `uploadTask` — the per-task upload retry loop with
  its three-way error classification;
* `getSegment` — the segment reader with final-segment truncation;
* `taskSegIndices`, `nodeTasks`, `perNodeTaskLists`, `sortByLen`,
  `interleave`, `splitTasks` — the task planner.

JavaScript numbers are modelled as `Int` (or `Nat` where the source
value is a count), `Math.floor` division as `Int.fdiv` (floor
division), and `BigInt` division as `Int.tdiv` (truncation toward
zero).  Asynchronous node / ledger responses are modelled as oracles
(`Nat → _`) giving the outcome of each successive call.
-/

/-- Modelled from the spec: `DEFAULT_CHUNK_SIZE` from `constant.js`,
which is not part of the provided sources.  The spec fixes a chunk as
the smallest addressable unit, with a segment of up to 1024 chunks;
the protocol default chunk size is 256 bytes. -/
def DEFAULT_CHUNK_SIZE : Nat := 256

/-- Modelled from the spec: `DEFAULT_SEGMENT_MAX_CHUNKS` from
`constant.js` (not in the provided sources); the spec states a segment
holds up to 1024 chunks. -/
def DEFAULT_SEGMENT_MAX_CHUNKS : Nat := 1024

/-- Modelled from the spec: `DEFAULT_SEGMENT_SIZE` from `constant.js`
(not in the provided sources): the byte size of a full segment. -/
def DEFAULT_SEGMENT_SIZE : Nat := DEFAULT_CHUNK_SIZE * DEFAULT_SEGMENT_MAX_CHUNKS

/-- Source `GetSplitNum(total, unit)` from `utils.js`:
`Math.floor((total - 1) / unit + 1)`.  Adding the integer 1 inside
`Math.floor` is the same as adding it outside, so this is
`fdiv (total - 1) unit + 1`. -/
def GetSplitNum (total unit : Int) : Int :=
  (total - 1).fdiv unit + 1

/-- Source `SegmentRange(startChunkIndex, fileSize)` from `utils.js`. -/
def SegmentRange (startChunkIndex fileSize : Int) : Int × Int :=
  let totalChunks := GetSplitNum fileSize (DEFAULT_CHUNK_SIZE : Int)
  let startSegmentIndex := startChunkIndex.fdiv (DEFAULT_SEGMENT_MAX_CHUNKS : Int)
  let endChunkIndex := startChunkIndex + totalChunks - 1
  let endSegmentIndex := endChunkIndex.fdiv (DEFAULT_SEGMENT_MAX_CHUNKS : Int)
  (startSegmentIndex, endSegmentIndex)

/-- Per-node shard configuration, as returned by `getShardConfigs`. -/
structure ShardConfig where
  shardId : Int
  numShard : Int
deriving DecidableEq, Repr

/-- Source `Uploader.nextSgmentIndex(config, startIndex)`:
if `numShard < 2` the start index is returned unchanged, otherwise
`Math.floor((startIndex + numShard - 1 - shardId) / numShard) * numShard + shardId`. -/
def nextSgmentIndex (config : ShardConfig) (startIndex : Int) : Int :=
  if config.numShard < 2 then startIndex
  else
    ((startIndex + config.numShard - 1 - config.shardId).fdiv config.numShard) *
      config.numShard + config.shardId

/-- JS-style substring test on character lists: `containsSub pat s`
is true when `pat` occurs contiguously inside `s` (and is always true
for the empty pattern), mirroring `String.prototype.includes`. -/
def containsSub (pat : List Char) : List Char → Bool
  | [] => pat.isEmpty
  | c :: t => pat.isPrefixOf (c :: t) || containsSub pat t

/-- JavaScript string containment `s.includes(pat)`. -/
def strContains (s pat : String) : Bool :=
  containsSub pat.data s.data

/-- The dynamic `data` field carried by storage-node errors: either a
plain string or an object with an optional `message` field. -/
inductive ErrData where
  | str (s : String)
  | obj (message : Option String)
deriving DecidableEq, Repr

/-- A JavaScript `Error` as the uploader observes it: a `message`
string plus the optional duck-typed `data` payload. -/
structure JsError where
  message : String
  data : Option ErrData := none
deriving DecidableEq, Repr

/-- Test `error.data?.includes?.(pat)`: only a string `data` has an
`includes` method; on an object the optional call yields `undefined`
(falsy). -/
def dataIncludes (d : Option ErrData) (pat : String) : Bool :=
  match d with
  | some (.str s) => strContains s pat
  | _ => false

/-- Test `error.data === pat` for a string literal `pat`. -/
def dataEqString (d : Option ErrData) (pat : String) : Bool :=
  match d with
  | some (.str s) => s == pat
  | _ => false

/-- Test `error.data?.message?.includes(pat)`. -/
def dataMessageIncludes (d : Option ErrData) (pat : String) : Bool :=
  match d with
  | some (.obj (some m)) => strContains m pat
  | _ => false

/-- Source `Uploader.isAlreadyUploadedError(error)`. -/
def isAlreadyUploadedError (e : JsError) : Bool :=
  dataIncludes e.data "already uploaded and finalized" ||
    (strContains e.message "Invalid params" &&
      dataEqString e.data "already uploaded and finalized")

/-- Source `Uploader.isRetryableError(error)`. -/
def isRetryableError (e : JsError) : Bool :=
  strContains e.message "too many data writing" ||
    strContains e.message "returned null for upload segments" ||
    dataMessageIncludes e.data "too many data writing"

/-- The `RetryOpts` record threaded through the source: `Retries` and
`Interval` may be `undefined` (`none`), `MaxGasPrice` defaults to 0,
`TooManyDataRetries` may be `undefined`. -/
structure RetryOpts where
  Retries : Option Nat := none
  Interval : Option Nat := none
  MaxGasPrice : Int := 0
  TooManyDataRetries : Option Nat := none
deriving DecidableEq, Repr

/-- A transaction receipt: its `status` plus an identifier
distinguishing distinct receipts. -/
structure TxReceipt where
  status : Int
  id : Nat
deriving DecidableEq, Repr

/-- Retry-count resolution of `waitForReceipt` (`utils.js` lines 89-97):
missing `opts`, or an `undefined`/0 `Retries`, mean 10. -/
def resolveRetries (opts : Option RetryOpts) : Nat :=
  match opts with
  | none => 10
  | some o =>
    match o.Retries with
    | none => 10
    | some 0 => 10
    | some n => n

/-- Interval resolution of `waitForReceipt`: missing `opts`, or an
`undefined`/0 `Interval`, mean 5 (seconds). -/
def resolveInterval (opts : Option RetryOpts) : Nat :=
  match opts with
  | none => 5
  | some o =>
    match o.Interval with
    | none => 5
    | some 0 => 5
    | some n => n

/-- The polling loop of `waitForReceipt` (`utils.js` lines 98-107).
`polls n` is what `provider.getTransactionReceipt` returns on the
`n`-th try.  Returns the final receipt (or `none`), the number of
polls performed, and the list of `delay` sleeps (in ms) taken. -/
def waitReceiptLoop (polls : Nat → Option TxReceipt) (interval : Nat) :
    Nat → Nat → Option TxReceipt × Nat × List Nat
  | _, 0 => (none, 0, [])
  | nTries, remaining + 1 =>
    match polls nTries with
    | some r =>
      if r.status = 1 then (some r, 1, [])
      else
        let rest := waitReceiptLoop polls interval (nTries + 1) remaining
        (rest.1, rest.2.1 + 1, interval * 1000 :: rest.2.2)
    | none =>
      let rest := waitReceiptLoop polls interval (nTries + 1) remaining
      (rest.1, rest.2.1 + 1, interval * 1000 :: rest.2.2)

/-- Source `waitForReceipt(provider, txHash, opts)` from `utils.js`:
polls up to the resolved retry count, accepting only a non-null
receipt with `status == 1`. -/
def waitForReceipt (polls : Nat → Option TxReceipt) (opts : Option RetryOpts) :
    Option TxReceipt × Nat × List Nat :=
  waitReceiptLoop polls (resolveInterval opts) 0 (resolveRetries opts)

/-- Outcome of one send-and-wait attempt inside `txWithGasAdjustment`:
the contract call threw, `resp.wait()` returned null (the source then
throws `Send transaction timeout`), `waitForReceipt` returned null
(the source throws `Get transaction receipt timeout`), or a receipt
was obtained. -/
inductive SendOutcome where
  | threw (e : JsError)
  | waitNull
  | receiptNull
  | confirmed (r : TxReceipt)
deriving DecidableEq, Repr

/-- The error the `try` block of `txWithGasAdjustment` raises for each
non-confirmed outcome. -/
def sendError : SendOutcome → JsError
  | .threw e => e
  | .waitNull => { message := "Send transaction timeout" }
  | .receiptNull => { message := "Get transaction receipt timeout" }
  | .confirmed _ => { message := "" }

/-- The `try` body of one escalation attempt, folded to its outcome:
a receipt, or the error the body throws (`sendError`). -/
def sendAttempt : SendOutcome → Except JsError TxReceipt
  | .confirmed r => .ok r
  | o => .error (sendError o)

/-- Gas-price escalation step: `(11n * price) / 10n`.  JavaScript
`BigInt` division truncates toward zero, i.e. `Int.tdiv`. -/
def escalate (price : Int) : Int :=
  (11 * price).tdiv 10

/-- Result of `txWithGasAdjustment`: a receipt, an error return
`[null, err]` (with the last caught error, possibly null), or
exhaustion of the outcome oracle (the source would keep looping). -/
inductive TxResult where
  | ok (r : TxReceipt)
  | err (e : Option JsError)
  | fuelOut
deriving DecidableEq, Repr

/-- The `while (current_gas_price <= maxGasPrice)` loop of
`txWithGasAdjustment` (`utils.js` lines 54-85), instrumented with the
list of gas prices actually attempted.  A caught error whose message
includes "timeout" escalates the price and retries; any other caught
error returns `[null, err]` immediately. -/
def txLoop : List SendOutcome → Int → Int → Option JsError → TxResult × List Int
  | [], price, maxGasPrice, lastErr =>
    if price ≤ maxGasPrice then (.fuelOut, []) else (.err lastErr, [])
  | o :: rest, price, maxGasPrice, lastErr =>
    if price ≤ maxGasPrice then
      match sendAttempt o with
      | .ok r => (.ok r, [price])
      | .error e =>
        if strContains e.message "timeout" then
          let next := txLoop rest (escalate price) maxGasPrice (some e)
          (next.1, price :: next.2)
        else (.err (some e), [price])
    else (.err lastErr, [])

/-- Resolution of `maxGasPrice` in `txWithGasAdjustment` (`utils.js`
lines 49-53): defaults to the starting gas price; a positive
`retryOpts.MaxGasPrice` overrides it. -/
def resolveMaxGasPrice (gasPrice : Int) (retryOpts : Option RetryOpts) : Int :=
  match retryOpts with
  | some ro => if ro.MaxGasPrice > 0 then ro.MaxGasPrice else gasPrice
  | none => gasPrice

/-- Source `txWithGasAdjustment(contract, provider, method, params, txOpts,
retryOpts)`: `outcomes` is the oracle of successive send-and-wait
outcomes; `gasPrice` is `txOpts.gasPrice` on entry. -/
def txWithGasAdjustment (outcomes : List SendOutcome) (gasPrice : Int)
    (retryOpts : Option RetryOpts) : TxResult × List Int :=
  txLoop outcomes gasPrice (resolveMaxGasPrice gasPrice retryOpts) none

/-- Gas-price selection in `Uploader.submitTransaction` (lines
154-166): a positive uploader gas price is used as-is, otherwise the
network's suggested price (whose absence, `none`, makes the submission
fail before any attempt). -/
def submissionGasPrice (uploaderGasPrice : Int) (suggestedGasPrice : Option Int) : Option Int :=
  if uploaderGasPrice > 0 then some uploaderGasPrice else suggestedGasPrice

/-- Outcome of one `uploadSegmentsByTxSeq` call: a non-null response,
a null response (the source then throws `Node <url> returned null for
upload segments`), or a thrown error. -/
inductive UploadOutcome where
  | ok (v : Int)
  | nullResp
  | raise (e : JsError)
deriving DecidableEq, Repr

/-- The error thrown for a null upload response. -/
def nullRespError (url : String) : JsError :=
  { message := "Node " ++ url ++ " returned null for upload segments" }

/-- The `try` body of one attempt in `uploadTask`: a value, or the
error the attempt throws. -/
def attemptResult (url : String) : UploadOutcome → Except JsError Int
  | .ok v => .ok v
  | .nullResp => .error (nullRespError url)
  | .raise e => .error e

/-- Error built on exhausting retries:
`Failed after <maxRetries> attempts: <message>`. -/
def maxRetriesError (maxRetries : Nat) (e : JsError) : JsError :=
  { message := "Failed after " ++ toString maxRetries ++ " attempts: " ++ e.message }

/-- Fallback error after the retry loop exits without a last error:
`Upload failed after <maxRetries> attempts to node <url>`. -/
def uploadFailedError (url : String) (maxRetries : Nat) : JsError :=
  { message := "Upload failed after " ++ toString maxRetries ++ " attempts to node " ++ url }

/-- Result a single upload task reports. -/
inductive TaskResult where
  | success (v : Int)
  | failure (e : JsError)
deriving DecidableEq, Repr

/-- The retry loop of `Uploader.uploadTask` (lines 385-433).  `node n`
is the outcome of the `n`-th `uploadSegmentsByTxSeq` call.  `fuel` is
`maxRetries - attempt` (the loop guard `attempt < maxRetries`).
Returns the task result, the number of upload attempts made, and the
list of backoff sleeps (in ms) taken:
`interval * 1000 * (attempt + 1)` before each retry. -/
def uploadTaskLoop (url : String) (node : Nat → UploadOutcome)
    (maxRetries interval : Nat) :
    Nat → Nat → Option JsError → TaskResult × Nat × List Nat
  | _, 0, lastErr =>
    (.failure (match lastErr with
      | some e => e
      | none => uploadFailedError url maxRetries), 0, [])
  | attempt, fuel + 1, _ =>
    match attemptResult url (node attempt) with
    | .ok v => (.success v, 1, [])
    | .error e =>
      if isAlreadyUploadedError e then (.success 0, 1, [])
      else if isRetryableError e then
        if attempt < maxRetries - 1 then
          let w := interval * 1000 * (attempt + 1)
          let next := uploadTaskLoop url node maxRetries interval (attempt + 1) fuel (some e)
          (next.1, next.2.1 + 1, w :: next.2.2)
        else (.failure (maxRetriesError maxRetries e), 1, [])
      else (.failure e, 1, [])

/-- Default `retryOpts?.TooManyDataRetries ?? 3`. -/
def resolveTooManyRetries (retryOpts : Option RetryOpts) : Nat :=
  match retryOpts with
  | none => 3
  | some o =>
    match o.TooManyDataRetries with
    | none => 3
    | some n => n

/-- Default `retryOpts?.Interval ?? 3` (the upload loop, unlike
`waitForReceipt`, does not replace an explicit 0). -/
def resolveUploadInterval (retryOpts : Option RetryOpts) : Nat :=
  match retryOpts with
  | none => 3
  | some o =>
    match o.Interval with
    | none => 3
    | some n => n

/-- The retry phase of `Uploader.uploadTask` with resolved options
(the segment-collection phase, lines 369-383, feeds the request body
and does not affect attempt accounting, which is what the oracle
`node` abstracts). -/
def uploadTask (url : String) (node : Nat → UploadOutcome)
    (retryOpts : Option RetryOpts) : TaskResult × Nat × List Nat :=
  uploadTaskLoop url node (resolveTooManyRetries retryOpts)
    (resolveUploadInterval retryOpts) 0 (resolveTooManyRetries retryOpts) none

/-- Result of `Uploader.getSegment`: past-the-end (`[true, null,
null]`), a failed read (`[false, null, err]`), or a segment together
with the `allDataUploaded` flag. -/
inductive SegmentResult where
  | noMoreData
  | readFailed
  | segment (allDataUploaded : Bool) (data : List Nat)
deriving DecidableEq, Repr

/-- Source `Uploader.getSegment(file, tree, segIndex)` (lines 339-367),
abstracting the file to its chunk count and the batched read to its
returned bytes (`read = none` models a failed read).  The source's
final-segment test is
`startIndex + segment.length / DEFAULT_CHUNK_SIZE >= numChunks` with
exact (rational) division — division of these magnitudes by 256 is
exact in JS floats — which is embedded here multiplied through by
`DEFAULT_CHUNK_SIZE > 0`. -/
def getSegment (numChunks : Nat) (read : Option (List Nat)) (segIndex : Nat) : SegmentResult :=
  let startSegIndex := segIndex * DEFAULT_SEGMENT_MAX_CHUNKS
  if numChunks ≤ startSegIndex then .noMoreData
  else
    match read with
    | none => .readFailed
    | some seg =>
      let startIndex := segIndex * DEFAULT_SEGMENT_MAX_CHUNKS
      if DEFAULT_CHUNK_SIZE * numChunks ≤ DEFAULT_CHUNK_SIZE * startIndex + seg.length then
        .segment true (seg.take (DEFAULT_CHUNK_SIZE * (numChunks - startIndex)))
      else .segment false seg

/-- The slice of file info `splitTasks` consults per node:
`getFileInfo(rootHash, true)` returns null or a record with a
`finalized` flag. -/
structure FileInfoLite where
  finalized : Bool
deriving DecidableEq, Repr

/-- The skip test of `splitTasks` (lines 303-307):
`cInfo !== null && cInfo.finalized`. -/
def nodeSkipped (getFileInfo : Nat → Option FileInfoLite) (clientIndex : Nat) : Bool :=
  match getFileInfo clientIndex with
  | some info => info.finalized
  | none => false

/-- One upload task, as built by `splitTasks`. -/
structure UploadTask where
  clientIndex : Nat
  taskSize : Int
  segIndex : Int
  numShard : Int
  txSeq : Int
deriving DecidableEq, Repr

/-- Fuelled form of the inner `while (segIndex <= endSegmentIndex)`
loop of `splitTasks`: one fuel unit per loop iteration.  Since the
index grows by `step ≥ 1` each pass, `endSegmentIndex + 1 - segIndex`
iterations always suffice. -/
def taskSegIndicesAux (endSegmentIndex step : Int) : Nat → Int → List Int
  | 0, _ => []
  | fuel + 1, segIndex =>
    if segIndex ≤ endSegmentIndex ∧ 0 < step then
      segIndex :: taskSegIndicesAux endSegmentIndex step fuel (segIndex + step)
    else []

/-- The absolute segment indices visited by the inner `while (segIndex
<= endSegmentIndex)` loop of `splitTasks`, stepping by `step =
numShard * taskSize`.  The source loops forever when `step ≤ 0`; the
`0 < step` guard makes the embedding total (it only differs from the
source on inputs where the source diverges). -/
def taskSegIndices (segIndex endSegmentIndex step : Int) : List Int :=
  taskSegIndicesAux endSegmentIndex step (endSegmentIndex + 1 - segIndex).toNat segIndex

/-- The task list one node contributes (lines 308-319): walk the
node's shard indices from `nextSgmentIndex(shardConfig,
startSegmentIndex)`, stepping `numShard * taskSize`, recording
segment indices relative to `startSegmentIndex`. -/
def nodeTasks (clientIndex : Nat) (cfg : ShardConfig)
    (startSegmentIndex endSegmentIndex taskSize txSeq : Int) : List UploadTask :=
  (taskSegIndices (nextSgmentIndex cfg startSegmentIndex) endSegmentIndex
      (cfg.numShard * taskSize)).map
    (fun s =>
      { clientIndex := clientIndex
        taskSize := taskSize
        segIndex := s - startSegmentIndex
        numShard := cfg.numShard
        txSeq := txSeq })

/-- The per-node task lists built by the `for (clientIndex …)` loop of
`splitTasks` (lines 301-323): a finalized node is skipped, an empty
task list is not pushed. -/
def perNodeTaskLists (getFileInfo : Nat → Option FileInfoLite)
    (startSegmentIndex endSegmentIndex taskSize txSeq : Int) :
    Nat → List ShardConfig → List (List UploadTask)
  | _, [] => []
  | clientIndex, cfg :: rest =>
    let tail := perNodeTaskLists getFileInfo startSegmentIndex endSegmentIndex
      taskSize txSeq (clientIndex + 1) rest
    if nodeSkipped getFileInfo clientIndex then tail
    else
      let ts := nodeTasks clientIndex cfg startSegmentIndex endSegmentIndex taskSize txSeq
      if ts.isEmpty then tail else ts :: tail

/-- Stable insertion of a task list into a length-sorted list of
lists, placing it before the first strictly longer list. -/
def insertByLen (l : List UploadTask) : List (List UploadTask) → List (List UploadTask)
  | [] => [l]
  | x :: xs => if x.length < l.length then x :: insertByLen l xs else l :: x :: xs

/-- Source `uploadTasks.sort((a, b) => a.length - b.length)`: the stable
(ECMAScript-mandated) ascending sort by list length. -/
def sortByLen : List (List UploadTask) → List (List UploadTask)
  | [] => []
  | x :: xs => insertByLen x (sortByLen xs)

/-- The inner `for (i = 0; i < uploadTasks.length && taskIndex <
uploadTasks[i].length; i++)` pass (lines 332-334): pushes
`uploadTasks[i][taskIndex]`, stopping at the first list that is too
short. -/
def innerPass : List (List UploadTask) → Nat → List UploadTask
  | [], _ => []
  | l :: rest, t =>
    match l[t]? with
    | some a => a :: innerPass rest t
    | none => []

/-- The round-robin flattening loop of `splitTasks` (lines 329-336):
the outer index ranges over `uploadTasks[0].length`, the length of the
first (shortest, after the ascending sort) list. -/
def interleave (ls : List (List UploadTask)) : List UploadTask :=
  match ls with
  | [] => []
  | l0 :: _ => (List.range l0.length).flatMap (fun t => innerPass ls t)

/-- Source `Uploader.splitTasks` from the per-node loop on (lines 300-337):
builds the per-node task lists, returns `[]` when empty, otherwise
sorts them ascending by length and interleaves round-robin.  The
shard-config fetch, replica pre-check and the `SegmentRange`
computation that precede (lines 288-299) fail before any task is
built; `startSegmentIndex`/`endSegmentIndex` arrive here as inputs. -/
def splitTasks (getFileInfo : Nat → Option FileInfoLite) (cfgs : List ShardConfig)
    (startSegmentIndex endSegmentIndex taskSize txSeq : Int) : List UploadTask :=
  let uploadTasks := perNodeTaskLists getFileInfo startSegmentIndex endSegmentIndex
    taskSize txSeq 0 cfgs
  if uploadTasks.isEmpty then []
  else interleave (sortByLen uploadTasks)

/-- Claim C6: for `numShard ≥ 2`, `0 ≤ shardId < numShard` and
`fromIndex ≥ 0`, `nextSgmentIndex` returns the smallest index `r ≥
fromIndex` with `r ≡ shardId (mod numShard)`; in particular `r %
numShard = shardId` and `r ≥ fromIndex`.  For `numShard < 2` it
returns `fromIndex` unchanged. -/
theorem nextSgmentIndex_least (cfg : ShardConfig) (fromIndex : Int)
    (h2 : 2 ≤ cfg.numShard) (hs0 : 0 ≤ cfg.shardId) (hs : cfg.shardId < cfg.numShard)
    (hf : 0 ≤ fromIndex) :
    nextSgmentIndex cfg fromIndex % cfg.numShard = cfg.shardId ∧
    fromIndex ≤ nextSgmentIndex cfg fromIndex ∧
    (∀ r : Int, fromIndex ≤ r → r % cfg.numShard = cfg.shardId →
      nextSgmentIndex cfg fromIndex ≤ r) ∧
    (∀ (cfg' : ShardConfig) (i : Int), cfg'.numShard < 2 → nextSgmentIndex cfg' i = i) := by
  set n := cfg.numShard with hn
  set s := cfg.shardId with hsid
  set a := fromIndex + n - 1 - s with ha
  have hd : n * a.fdiv n + a.fmod n = a := Int.fdiv_add_fmod a n
  have hm0 : 0 ≤ a.fmod n := Int.fmod_nonneg (by omega) (by omega)
  have hmlt : a.fmod n < n := Int.fmod_lt_of_pos a (by omega)
  have hr : nextSgmentIndex cfg fromIndex = n * a.fdiv n + s := by
    unfold nextSgmentIndex
    rw [if_neg (by omega)]
    ring_nf
  have hge : fromIndex ≤ nextSgmentIndex cfg fromIndex := by
    rw [hr]; linarith [hd]
  have hlt : nextSgmentIndex cfg fromIndex < fromIndex + n := by
    rw [hr]; linarith [hd]
  refine ⟨?_, hge, ?_, ?_⟩
  · rw [hr]
    have h1 : n * a.fdiv n + s = s + a.fdiv n * n := by ring
    rw [h1, Int.add_mul_emod_self]
    exact Int.emod_eq_of_lt hs0 hs
  · intro r hr1 hr2
    have hme : nextSgmentIndex cfg fromIndex % n = s := by
      rw [hr]
      have h1 : n * a.fdiv n + s = s + a.fdiv n * n := by ring
      rw [h1, Int.add_mul_emod_self]
      exact Int.emod_eq_of_lt hs0 hs
    have hdvd : n ∣ r - nextSgmentIndex cfg fromIndex := by
      have : (r - nextSgmentIndex cfg fromIndex) % n = 0 := by
        rw [Int.sub_emod, hme, hr2, sub_self, Int.zero_emod]
      exact Int.dvd_of_emod_eq_zero this
    rcases hdvd with ⟨k, hk⟩
    by_contra hcon
    push_neg at hcon
    have hkneg : k < 0 := by
      by_contra hk0
      push_neg at hk0
      have : 0 ≤ n * k := mul_nonneg (by omega) hk0
      omega
    have : n * k ≤ n * (-1) := by
      apply mul_le_mul_of_nonneg_left (by omega) (by omega)
    omega
  · intro cfg' i h
    unfold nextSgmentIndex
    rw [if_pos h]

/-- Witness for `nextSgmentIndex_least` at `shardId = 1`,
`numShard = 3`, `fromIndex = 5`. -/
theorem nextSgmentIndex_least_witness :
    nextSgmentIndex ⟨1, 3⟩ 5 % 3 = 1 ∧ (5 : Int) ≤ nextSgmentIndex ⟨1, 3⟩ 5 :=
  ⟨(nextSgmentIndex_least ⟨1, 3⟩ 5 (by decide) (by decide) (by decide) (by decide)).1,
   (nextSgmentIndex_least ⟨1, 3⟩ 5 (by decide) (by decide) (by decide) (by decide)).2.1⟩

/-- Claim C7: for `total ≥ 1` and `unit ≥ 1`, `GetSplitNum(total,
unit)` is `floor((total-1)/unit) + 1`, and it is the ceiling of
`total / unit`: `GetSplitNum * unit ≥ total` and `(GetSplitNum - 1) *
unit < total`. -/
theorem GetSplitNum_spec (total unit : Int) (ht : 1 ≤ total) (hu : 1 ≤ unit) :
    GetSplitNum total unit = (total - 1).fdiv unit + 1 ∧
    total ≤ GetSplitNum total unit * unit ∧
    (GetSplitNum total unit - 1) * unit < total := by
  have hd : unit * (total - 1).fdiv unit + (total - 1).fmod unit = total - 1 :=
    Int.fdiv_add_fmod (total - 1) unit
  have hm0 : 0 ≤ (total - 1).fmod unit := Int.fmod_nonneg (by omega) (by omega)
  have hmlt : (total - 1).fmod unit < unit := Int.fmod_lt_of_pos _ (by omega)
  refine ⟨rfl, ?_, ?_⟩
  · have h1 : GetSplitNum total unit * unit = unit * (total - 1).fdiv unit + unit := by
      unfold GetSplitNum; ring
    linarith
  · have h2 : (GetSplitNum total unit - 1) * unit = unit * (total - 1).fdiv unit := by
      unfold GetSplitNum; ring
    linarith

/-- Witness for `GetSplitNum_spec` at `total = 10`, `unit = 3`. -/
theorem GetSplitNum_spec_witness :
    (10 : Int) ≤ GetSplitNum 10 3 * 3 ∧ (GetSplitNum 10 3 - 1) * 3 < 10 :=
  ⟨(GetSplitNum_spec 10 3 (by decide) (by decide)).2.1,
   (GetSplitNum_spec 10 3 (by decide) (by decide)).2.2⟩

/-- Floor division by a positive constant shifts by one when the
numerator grows by that constant. -/
theorem fdiv_add_self_pos (x c : Int) (hc : 0 < c) :
    (x + c).fdiv c = x.fdiv c + 1 := by
  rw [Int.fdiv_eq_ediv _ (by omega), Int.fdiv_eq_ediv _ (by omega)]
  have h := Int.add_mul_ediv_right x 1 (show c ≠ 0 by omega)
  simpa using h

/-- Claim C9: for `startChunkIndex ≥ 0` and `fileSize ≥ 1`, increasing
the start chunk index by `DEFAULT_SEGMENT_MAX_CHUNKS` shifts both
components of `SegmentRange` by exactly 1. -/
theorem SegmentRange_shift (startChunkIndex fileSize : Int)
    (hs : 0 ≤ startChunkIndex) (hf : 1 ≤ fileSize) :
    SegmentRange (startChunkIndex + (DEFAULT_SEGMENT_MAX_CHUNKS : Int)) fileSize =
      ((SegmentRange startChunkIndex fileSize).1 + 1,
       (SegmentRange startChunkIndex fileSize).2 + 1) := by
  have hpos : (0 : Int) < (DEFAULT_SEGMENT_MAX_CHUNKS : Int) := by decide
  simp only [SegmentRange]
  refine Prod.ext ?_ ?_
  · simpa using fdiv_add_self_pos startChunkIndex _ hpos
  · have harr : startChunkIndex + (DEFAULT_SEGMENT_MAX_CHUNKS : Int) +
        GetSplitNum fileSize (DEFAULT_CHUNK_SIZE : Int) - 1 =
        (startChunkIndex + GetSplitNum fileSize (DEFAULT_CHUNK_SIZE : Int) - 1) +
          (DEFAULT_SEGMENT_MAX_CHUNKS : Int) := by ring
    simpa [harr] using
      fdiv_add_self_pos
        (startChunkIndex + GetSplitNum fileSize (DEFAULT_CHUNK_SIZE : Int) - 1) _ hpos

/-- Witness for `SegmentRange_shift` at `startChunkIndex = 5`,
`fileSize = 300`. -/
theorem SegmentRange_shift_witness :
    SegmentRange (5 + (DEFAULT_SEGMENT_MAX_CHUNKS : Int)) 300 =
      ((SegmentRange 5 300).1 + 1, (SegmentRange 5 300).2 + 1) :=
  SegmentRange_shift 5 300 (by decide) (by decide)

/-- Claim C8: for a segment index in range (`segIndex *
maxChunksPerSegment < numChunks`) and a successful read, if the
segment reaches the end of the chunk-derived length the returned data
is truncated to exactly `chunkSize * (numChunks - segIndex *
maxChunksPerSegment)` bytes with `allDataUploaded = true`; otherwise
the data is returned untruncated with `allDataUploaded = false`. -/
theorem getSegment_final_truncation (numChunks : Nat) (seg : List Nat) (segIndex : Nat)
    (hlt : segIndex * DEFAULT_SEGMENT_MAX_CHUNKS < numChunks) :
    (DEFAULT_CHUNK_SIZE * numChunks ≤
        DEFAULT_CHUNK_SIZE * (segIndex * DEFAULT_SEGMENT_MAX_CHUNKS) + seg.length →
      getSegment numChunks (some seg) segIndex =
        .segment true
          (seg.take (DEFAULT_CHUNK_SIZE * (numChunks - segIndex * DEFAULT_SEGMENT_MAX_CHUNKS))) ∧
      (seg.take (DEFAULT_CHUNK_SIZE * (numChunks - segIndex * DEFAULT_SEGMENT_MAX_CHUNKS))).length =
        DEFAULT_CHUNK_SIZE * (numChunks - segIndex * DEFAULT_SEGMENT_MAX_CHUNKS)) ∧
    (DEFAULT_CHUNK_SIZE * (segIndex * DEFAULT_SEGMENT_MAX_CHUNKS) + seg.length <
        DEFAULT_CHUNK_SIZE * numChunks →
      getSegment numChunks (some seg) segIndex = .segment false seg) := by
  constructor
  · intro hfin
    have hres : getSegment numChunks (some seg) segIndex =
        .segment true
          (seg.take (DEFAULT_CHUNK_SIZE * (numChunks - segIndex * DEFAULT_SEGMENT_MAX_CHUNKS))) := by
      simp only [getSegment]
      rw [if_neg (Nat.not_le.mpr hlt), if_pos hfin]
    refine ⟨hres, ?_⟩
    rw [List.length_take]
    simp only [DEFAULT_CHUNK_SIZE, DEFAULT_SEGMENT_MAX_CHUNKS] at hfin hlt ⊢
    omega
  · intro hsmall
    simp only [getSegment]
    rw [if_neg (Nat.not_le.mpr hlt), if_neg (Nat.not_le.mpr hsmall)]

set_option maxRecDepth 8000 in
/-- Witness for `getSegment_final_truncation`: a non-final read of 10
bytes in a 2000-chunk file, and a final read of 300 bytes in a
1-chunk file truncated to 256 bytes. -/
theorem getSegment_final_truncation_witness :
    getSegment 2000 (some (List.replicate 10 0)) 0 = .segment false (List.replicate 10 0) ∧
    getSegment 1 (some (List.replicate 300 0)) 0 =
      .segment true ((List.replicate 300 0).take 256) :=
  ⟨(getSegment_final_truncation 2000 (List.replicate 10 0) 0 (by decide)).2 (by decide),
   ((getSegment_final_truncation 1 (List.replicate 300 0) 0 (by decide)).1 (by decide)).1⟩

/-- Claim C4: when the node's upload always throws an error classified
as already-uploaded, `uploadTask` makes exactly 1 attempt and reports
success (the source returns 0). -/
theorem uploadTask_already_uploaded (url : String) (node : Nat → UploadOutcome) (e : JsError)
    (hall : ∀ n, attemptResult url (node n) = .error e)
    (ha : isAlreadyUploadedError e = true) :
    uploadTask url node none = (.success 0, 1, []) := by
  simp [uploadTask, resolveTooManyRetries, resolveUploadInterval, uploadTaskLoop,
    hall 0, ha]

/-- Witness for `uploadTask_already_uploaded`: a node that always
reports `Invalid params` with data `already uploaded and finalized`. -/
theorem uploadTask_already_uploaded_witness :
    uploadTask "node1"
      (fun _ => .raise { message := "Invalid params", data := some (.str "already uploaded and finalized") })
      none = (.success 0, 1, []) :=
  uploadTask_already_uploaded "node1"
    (fun _ => .raise { message := "Invalid params", data := some (.str "already uploaded and finalized") })
    { message := "Invalid params", data := some (.str "already uploaded and finalized") }
    (fun _ => rfl) (by decide)

/-- Claim C3: with default retry options, two retryable failures (a
message containing "too many data writing", or the null-acknowledgement
error) followed by a success give exactly 3 upload attempts, sleeps of
`interval × attemptNumber` seconds (3 s then 6 s, recorded in ms)
before the second and third attempts, and a success result. -/
theorem uploadTask_retryable_three_attempts (url : String) (node : Nat → UploadOutcome)
    (v : Int) (e0 e1 : JsError)
    (h0 : attemptResult url (node 0) = .error e0)
    (h0r : (strContains e0.message "too many data writing" ||
            strContains e0.message "returned null for upload segments") = true)
    (h0a : isAlreadyUploadedError e0 = false)
    (h1 : attemptResult url (node 1) = .error e1)
    (h1r : (strContains e1.message "too many data writing" ||
            strContains e1.message "returned null for upload segments") = true)
    (h1a : isAlreadyUploadedError e1 = false)
    (h2 : node 2 = .ok v) :
    uploadTask url node none = (.success v, 3, [3000, 6000]) := by
  have hr0 : isRetryableError e0 = true := by
    cases hA : strContains e0.message "too many data writing" <;>
      cases hB : strContains e0.message "returned null for upload segments" <;>
        simp_all [isRetryableError]
  have hr1 : isRetryableError e1 = true := by
    cases hA : strContains e1.message "too many data writing" <;>
      cases hB : strContains e1.message "returned null for upload segments" <;>
        simp_all [isRetryableError]
  have h2' : attemptResult url (node 2) = .ok v := by rw [h2]; rfl
  simp [uploadTask, resolveTooManyRetries, resolveUploadInterval, uploadTaskLoop,
    h0, h0a, hr0, h1, h1a, hr1, h2']

/-- Witness for `uploadTask_retryable_three_attempts`: a "too many
data writing" failure, then a null response, then success. -/
theorem uploadTask_retryable_three_attempts_witness :
    uploadTask "node1"
      (fun n => if n = 0 then .raise { message := "too many data writing" }
                else if n = 1 then .nullResp else .ok 7)
      none = (.success 7, 3, [3000, 6000]) :=
  uploadTask_retryable_three_attempts "node1"
    (fun n => if n = 0 then .raise { message := "too many data writing" }
              else if n = 1 then .nullResp else .ok 7)
    7 { message := "too many data writing" } (nullRespError "node1")
    rfl (by decide) (by decide) rfl (by decide) (by decide) rfl

/-- Replacing every receipt whose status is not 1 by a missing receipt
does not change `waitReceiptLoop`'s behaviour at all. -/
theorem waitReceiptLoop_filter (polls : Nat → Option TxReceipt) (interval : Nat) :
    ∀ (remaining nTries : Nat),
      waitReceiptLoop polls interval nTries remaining =
        waitReceiptLoop
          (fun n => (polls n).bind (fun r => if r.status = 1 then some r else none))
          interval nTries remaining := by
  intro remaining
  induction remaining with
  | zero => intro nTries; rfl
  | succ m ih =>
    intro nTries
    simp only [waitReceiptLoop]
    cases hp : polls nTries with
    | none => simp [hp, ih (nTries + 1)]
    | some r =>
      by_cases hst : r.status = 1
      · simp [hp, hst]
      · simp [hp, hst, ih (nTries + 1)]

/-- The loop `waitReceiptLoop` never polls more often than its retry budget. -/
theorem waitReceiptLoop_count_le (polls : Nat → Option TxReceipt) (interval : Nat) :
    ∀ (remaining nTries : Nat),
      (waitReceiptLoop polls interval nTries remaining).2.1 ≤ remaining := by
  intro remaining
  induction remaining with
  | zero => intro nTries; simp [waitReceiptLoop]
  | succ m ih =>
    intro nTries
    simp only [waitReceiptLoop]
    cases hp : polls nTries with
    | none =>
      have := ih (nTries + 1)
      simp only []
      omega
    | some r =>
      by_cases hst : r.status = 1
      · simp [hst]
      · have := ih (nTries + 1)
        simp only [if_neg hst]
        omega

/-- When no poll within the budget yields a status-1 receipt, the loop
performs exactly `remaining` polls, sleeps `interval * 1000` ms after
each, and returns no receipt. -/
theorem waitReceiptLoop_all_fail (polls : Nat → Option TxReceipt) (interval : Nat) :
    ∀ (remaining nTries : Nat),
      (∀ k, k < remaining → ∀ r, polls (nTries + k) = some r → r.status ≠ 1) →
      waitReceiptLoop polls interval nTries remaining =
        (none, remaining, List.replicate remaining (interval * 1000)) := by
  intro remaining
  induction remaining with
  | zero => intro nTries _; rfl
  | succ m ih =>
    intro nTries h
    have hrec := ih (nTries + 1) (fun k hk r hr => by
      refine h (k + 1) (by omega) r ?_
      have e : nTries + (k + 1) = nTries + 1 + k := by omega
      rw [e]; exact hr)
    simp only [waitReceiptLoop]
    cases hp : polls nTries with
    | none => simp [hrec, List.replicate_succ]
    | some r =>
      have hst : r.status ≠ 1 := h 0 (by omega) r (by simpa using hp)
      simp [hst, hrec, List.replicate_succ]

/-- Claim C10: `waitForReceipt` treats a receipt with status other
than 1 (a reverted transaction) exactly like a missing receipt; it
never polls more than the resolved retry count; when no poll yields a
status-1 receipt it returns null after exactly that many polls spaced
by the resolved interval; the defaults are 10 retries and 5 seconds;
and the error `txWithGasAdjustment` raises for a null receipt is the
generic receipt-timeout error, classified as a timeout. -/
theorem waitForReceipt_reverted_as_missing (polls : Nat → Option TxReceipt)
    (opts : Option RetryOpts) :
    waitForReceipt polls opts =
      waitForReceipt
        (fun n => (polls n).bind (fun r => if r.status = 1 then some r else none)) opts ∧
    (waitForReceipt polls opts).2.1 ≤ resolveRetries opts ∧
    ((∀ n, n < resolveRetries opts → ∀ r, polls n = some r → r.status ≠ 1) →
      waitForReceipt polls opts =
        (none, resolveRetries opts,
          List.replicate (resolveRetries opts) (resolveInterval opts * 1000))) ∧
    resolveRetries none = 10 ∧ resolveInterval none = 5 ∧
    strContains (sendError .receiptNull).message "timeout" = true := by
  refine ⟨?_, ?_, ?_, rfl, rfl, by decide⟩
  · exact waitReceiptLoop_filter polls (resolveInterval opts) (resolveRetries opts) 0
  · exact waitReceiptLoop_count_le polls (resolveInterval opts) (resolveRetries opts) 0
  · intro h
    exact waitReceiptLoop_all_fail polls (resolveInterval opts) (resolveRetries opts) 0
      (fun k hk r hr => h k hk r (by simpa using hr))

/-- Witness for `waitForReceipt_reverted_as_missing`: a provider that
always returns a reverted receipt (status 0) yields null after 10
polls with 5-second sleeps. -/
theorem waitForReceipt_reverted_as_missing_witness :
    waitForReceipt (fun _ => some { status := 0, id := 5 }) none =
      (none, 10, List.replicate 10 5000) :=
  (waitForReceipt_reverted_as_missing (fun _ => some { status := 0, id := 5 }) none).2.2.1
    (fun n _ r hr => by
      have hr2 : some ({ status := 0, id := 5 } : TxReceipt) = some r := hr
      injection hr2 with h
      rw [← h]
      decide)

/-- The `i`-th gas price attempted by `txLoop` is the `i`-fold
escalation of the starting price. -/
theorem txLoop_trace_get (outs : List SendOutcome) :
    ∀ (p mp : Int) (le : Option JsError) (i : Nat),
      i < (txLoop outs p mp le).2.length →
      (txLoop outs p mp le).2[i]? = some (escalate^[i] p) := by
  induction outs with
  | nil =>
    intro p mp le i h
    simp only [txLoop] at h
    split at h <;> simp at h
  | cons o rest ih =>
    intro p mp le i h
    by_cases hple : p ≤ mp
    · simp only [txLoop, if_pos hple] at h ⊢
      cases hs : sendAttempt o with
      | ok r =>
        simp only [hs] at h ⊢
        simp only [List.length_singleton] at h
        have hi : i = 0 := by omega
        subst hi
        simp
      | error e =>
        simp only [hs] at h ⊢
        by_cases ht : strContains e.message "timeout"
        · rw [if_pos ht] at h ⊢
          cases i with
          | zero => simp
          | succ j =>
            simp only [List.length_cons] at h
            have hj : j < (txLoop rest (escalate p) mp (some e)).2.length := by omega
            have hrec := ih (escalate p) mp (some e) j hj
            simp only [List.getElem?_cons_succ]
            rw [hrec, Function.iterate_succ_apply]
        · rw [if_neg ht] at h ⊢
          simp only [List.length_singleton] at h
          have hi : i = 0 := by omega
          subst hi
          simp
    · simp only [txLoop, if_neg hple] at h
      simp at h

/-- Every gas price `txLoop` attempts is within the cap. -/
theorem txLoop_trace_le_max (outs : List SendOutcome) :
    ∀ (p mp : Int) (le : Option JsError) (q : Int),
      q ∈ (txLoop outs p mp le).2 → q ≤ mp := by
  induction outs with
  | nil =>
    intro p mp le q hq
    simp only [txLoop] at hq
    split at hq <;> simp at hq
  | cons o rest ih =>
    intro p mp le q hq
    by_cases hple : p ≤ mp
    · simp only [txLoop, if_pos hple] at hq
      cases hs : sendAttempt o with
      | ok r =>
        simp only [hs] at hq
        simp at hq
        exact hq ▸ hple
      | error e =>
        simp only [hs] at hq
        by_cases ht : strContains e.message "timeout"
        · rw [if_pos ht] at hq
          simp only [List.mem_cons] at hq
          rcases hq with rfl | hq
          · exact hple
          · exact ih (escalate p) mp (some e) q hq
        · rw [if_neg ht] at hq
          simp at hq
          exact hq ▸ hple
    · simp only [txLoop, if_neg hple] at hq
      simp at hq

/-- The loop `txLoop` makes at most one attempt per available outcome. -/
theorem txLoop_length_le (outs : List SendOutcome) :
    ∀ (p mp : Int) (le : Option JsError),
      (txLoop outs p mp le).2.length ≤ outs.length := by
  induction outs with
  | nil =>
    intro p mp le
    simp only [txLoop]
    split <;> simp
  | cons o rest ih =>
    intro p mp le
    by_cases hple : p ≤ mp
    · simp only [txLoop, if_pos hple]
      cases hs : sendAttempt o with
      | ok r => simp only [hs]; simp
      | error e =>
        simp only [hs]
        by_cases ht : strContains e.message "timeout"
        · rw [if_pos ht]
          simp only [List.length_cons]
          have := ih (escalate p) mp (some e)
          omega
        · rw [if_neg ht]; simp
    · simp only [txLoop, if_neg hple]
      simp

/-- If an outcome is available and the price is within the cap, an
attempt is made. -/
theorem txLoop_pos_length (o : SendOutcome) (rest : List SendOutcome)
    (p mp : Int) (le : Option JsError) (hple : p ≤ mp) :
    0 < (txLoop (o :: rest) p mp le).2.length := by
  simp only [txLoop, if_pos hple]
  cases hs : sendAttempt o with
  | ok r => simp only [hs]; simp
  | error e =>
    simp only [hs]
    by_cases ht : strContains e.message "timeout"
    · rw [if_pos ht]; simp
    · rw [if_neg ht]; simp

/-- Full per-attempt characterization of `txLoop`: a confirmed attempt
ends the loop with that receipt; a non-timeout error ends it
immediately with that error; a timeout error either leads to a further
attempt, or stops because the escalated price exceeds the cap (the
source returns the last error), or exhausts the modelled outcomes. -/
theorem txLoop_outcome (outs : List SendOutcome) :
    ∀ (p mp : Int) (le : Option JsError) (i : Nat) (oi : SendOutcome),
      i < (txLoop outs p mp le).2.length →
      outs[i]? = some oi →
      ((∀ r, sendAttempt oi = .ok r →
          (txLoop outs p mp le).1 = .ok r ∧ (txLoop outs p mp le).2.length = i + 1) ∧
       (∀ e, sendAttempt oi = .error e → strContains e.message "timeout" = false →
          (txLoop outs p mp le).1 = .err (some e) ∧
          (txLoop outs p mp le).2.length = i + 1) ∧
       (∀ e, sendAttempt oi = .error e → strContains e.message "timeout" = true →
          (i + 1 < (txLoop outs p mp le).2.length ∨
           (mp < escalate^[i + 1] p ∧ (txLoop outs p mp le).1 = .err (some e) ∧
             (txLoop outs p mp le).2.length = i + 1) ∨
           (outs.length = i + 1 ∧ (txLoop outs p mp le).1 = .fuelOut ∧
             (txLoop outs p mp le).2.length = i + 1)))) := by
  induction outs with
  | nil =>
    intro p mp le i oi h ho
    simp at ho
  | cons o rest ih =>
    intro p mp le i oi h ho
    by_cases hple : p ≤ mp
    · simp only [txLoop, if_pos hple] at h ⊢
      cases hs : sendAttempt o with
      | ok r0 =>
        simp only [hs] at h ⊢
        simp only [List.length_singleton] at h
        have hi : i = 0 := by omega
        subst hi
        simp only [List.getElem?_cons_zero, Option.some.injEq] at ho
        subst ho
        refine ⟨?_, ?_, ?_⟩
        · intro r hr
          rw [hs] at hr
          injection hr with hrr
          subst hrr
          exact ⟨rfl, rfl⟩
        · intro e he _
          rw [hs] at he
          exact Except.noConfusion he
        · intro e he _
          rw [hs] at he
          exact Except.noConfusion he
      | error e0 =>
        simp only [hs] at h ⊢
        by_cases ht : strContains e0.message "timeout"
        · rw [if_pos ht] at h ⊢
          cases i with
          | zero =>
            simp only [List.getElem?_cons_zero, Option.some.injEq] at ho
            subst ho
            refine ⟨?_, ?_, ?_⟩
            · intro r hr
              rw [hs] at hr
              exact Except.noConfusion hr
            · intro e he hnt
              rw [hs] at he
              injection he with hee
              subst hee
              rw [hnt] at ht
              exact Bool.noConfusion ht
            · intro e he _
              rw [hs] at he
              injection he with hee
              subst hee
              cases rest with
              | nil =>
                by_cases h2 : escalate p ≤ mp
                · right; right
                  refine ⟨rfl, ?_, ?_⟩
                  · simp [txLoop, if_pos h2]
                  · simp [txLoop, if_pos h2]
                · right; left
                  refine ⟨?_, ?_, ?_⟩
                  · simpa [Function.iterate_one] using (by omega : mp < escalate p)
                  · simp [txLoop, if_neg h2]
                  · simp [txLoop, if_neg h2]
              | cons o2 rest2 =>
                by_cases h2 : escalate p ≤ mp
                · left
                  have hp2 := txLoop_pos_length o2 rest2 (escalate p) mp (some e0) h2
                  simp only [List.length_cons]
                  omega
                · right; left
                  refine ⟨?_, ?_, ?_⟩
                  · simpa [Function.iterate_one] using (by omega : mp < escalate p)
                  · simp [txLoop, if_neg h2]
                  · simp [txLoop, if_neg h2]
          | succ j =>
            simp only [List.getElem?_cons_succ] at ho
            simp only [List.length_cons] at h
            have hj : j < (txLoop rest (escalate p) mp (some e0)).2.length := by omega
            have hrec := ih (escalate p) mp (some e0) j oi hj ho
            refine ⟨?_, ?_, ?_⟩
            · intro r hr
              have hc := hrec.1 r hr
              simp only [List.length_cons]
              exact ⟨hc.1, by omega⟩
            · intro e he hnt
              have hc := hrec.2.1 e he hnt
              simp only [List.length_cons]
              exact ⟨hc.1, by omega⟩
            · intro e he htt
              have hc := hrec.2.2 e he htt
              simp only [List.length_cons]
              rcases hc with h1 | ⟨hmp, hres, hlen⟩ | ⟨hlen0, hres, hlen⟩
              · left; omega
              · right; left
                refine ⟨?_, hres, by omega⟩
                simpa [Function.iterate_succ_apply] using hmp
              · right; right
                exact ⟨by simp [hlen0], hres, by omega⟩
        · rw [if_neg ht] at h ⊢
          simp only [List.length_singleton] at h
          have hi : i = 0 := by omega
          subst hi
          simp only [List.getElem?_cons_zero, Option.some.injEq] at ho
          subst ho
          refine ⟨?_, ?_, ?_⟩
          · intro r hr
            rw [hs] at hr
            exact Except.noConfusion hr
          · intro e he _
            rw [hs] at he
            injection he with hee
            subst hee
            exact ⟨rfl, rfl⟩
          · intro e he htt
            rw [hs] at he
            injection he with hee
            subst hee
            exact absurd htt ht
    · simp only [txLoop, if_neg hple] at h
      simp at h

/-- Claim C2: submission starts at the caller's gas price (or the
network's suggested price when the uploader's own price is unset);
attempt `i` of `txWithGasAdjustment` uses the `i`-fold escalation
`11 * price / 10` of the starting price; every attempted price stays
within the resolved maximum gas price (the caller-supplied cap when
positive, otherwise the starting price); after a timeout-classified
error the loop retries exactly while the escalated price does not
exceed the cap (or the modelled outcome supply ends); and a
non-timeout error returns immediately with that error and no further
attempt. -/
theorem txWithGasAdjustment_escalation (outcomes : List SendOutcome) (gasPrice : Int)
    (retryOpts : Option RetryOpts) :
    (∀ (g : Int) (suggested : Option Int),
      (0 < g → submissionGasPrice g suggested = some g) ∧
      (g ≤ 0 → submissionGasPrice g suggested = suggested)) ∧
    (outcomes ≠ [] → gasPrice ≤ resolveMaxGasPrice gasPrice retryOpts →
      0 < (txWithGasAdjustment outcomes gasPrice retryOpts).2.length) ∧
    (∀ i, i < (txWithGasAdjustment outcomes gasPrice retryOpts).2.length →
      (txWithGasAdjustment outcomes gasPrice retryOpts).2[i]? =
        some (escalate^[i] gasPrice)) ∧
    (∀ q ∈ (txWithGasAdjustment outcomes gasPrice retryOpts).2,
      q ≤ resolveMaxGasPrice gasPrice retryOpts) ∧
    (txWithGasAdjustment outcomes gasPrice retryOpts).2.length ≤ outcomes.length ∧
    (∀ i oi, i < (txWithGasAdjustment outcomes gasPrice retryOpts).2.length →
      outcomes[i]? = some oi →
      ((∀ r, sendAttempt oi = .ok r →
          (txWithGasAdjustment outcomes gasPrice retryOpts).1 = .ok r ∧
          (txWithGasAdjustment outcomes gasPrice retryOpts).2.length = i + 1) ∧
       (∀ e, sendAttempt oi = .error e → strContains e.message "timeout" = false →
          (txWithGasAdjustment outcomes gasPrice retryOpts).1 = .err (some e) ∧
          (txWithGasAdjustment outcomes gasPrice retryOpts).2.length = i + 1) ∧
       (∀ e, sendAttempt oi = .error e → strContains e.message "timeout" = true →
          (i + 1 < (txWithGasAdjustment outcomes gasPrice retryOpts).2.length ∨
           (resolveMaxGasPrice gasPrice retryOpts < escalate^[i + 1] gasPrice ∧
             (txWithGasAdjustment outcomes gasPrice retryOpts).1 = .err (some e) ∧
             (txWithGasAdjustment outcomes gasPrice retryOpts).2.length = i + 1) ∨
           (outcomes.length = i + 1 ∧
             (txWithGasAdjustment outcomes gasPrice retryOpts).1 = .fuelOut ∧
             (txWithGasAdjustment outcomes gasPrice retryOpts).2.length = i + 1))))) := by
  refine ⟨?_, ?_, ?_, ?_, ?_, ?_⟩
  · intro g s
    constructor
    · intro hg; simp [submissionGasPrice, hg]
    · intro hg; simp [submissionGasPrice, show ¬ 0 < g by omega]
  · intro hne hle
    cases outcomes with
    | nil => exact absurd rfl hne
    | cons o rest => exact txLoop_pos_length o rest gasPrice _ none hle
  · exact fun i hi => txLoop_trace_get outcomes gasPrice _ none i hi
  · exact fun q hq => txLoop_trace_le_max outcomes gasPrice _ none q hq
  · exact txLoop_length_le outcomes gasPrice _ none
  · exact fun i oi hi ho => txLoop_outcome outcomes gasPrice _ none i oi hi ho

/-- Witness for `txWithGasAdjustment_escalation`: starting at price
100 with cap 130, a timeout then a confirmation: the second attempt
uses the escalated price `11 * 100 / 10 = 110`. -/
theorem txWithGasAdjustment_escalation_witness :
    (txWithGasAdjustment [.waitNull, .confirmed { status := 1, id := 0 }] 100
        (some { MaxGasPrice := 130 })).2[1]? = some (escalate^[1] 100) :=
  (txWithGasAdjustment_escalation [.waitNull, .confirmed { status := 1, id := 0 }] 100
      (some { MaxGasPrice := 130 })).2.2.1 1 (by decide)

/-- Every task emitted by one `innerPass` comes from one of the
per-node lists. -/
theorem innerPass_mem (ls : List (List UploadTask)) (t : Nat) (a : UploadTask) :
    a ∈ innerPass ls t → ∃ l ∈ ls, a ∈ l := by
  induction ls with
  | nil => intro h; simp [innerPass] at h
  | cons l rest ih =>
    intro h
    simp only [innerPass] at h
    cases hg : l[t]? with
    | none => rw [hg] at h; simp at h
    | some x =>
      rw [hg] at h
      simp only [List.mem_cons] at h
      rcases h with rfl | h
      · exact ⟨l, List.mem_cons_self l rest, List.getElem?_mem hg⟩
      · obtain ⟨l2, hl2, hal2⟩ := ih h
        exact ⟨l2, List.mem_cons_of_mem l hl2, hal2⟩

/-- Every task in the interleaved flat list comes from one of the
per-node lists. -/
theorem interleave_mem (ls : List (List UploadTask)) (a : UploadTask) :
    a ∈ interleave ls → ∃ l ∈ ls, a ∈ l := by
  intro h
  cases ls with
  | nil => simp [interleave] at h
  | cons l0 rest =>
    simp only [interleave, List.mem_flatMap] at h
    obtain ⟨t, _, hil⟩ := h
    exact innerPass_mem _ t a hil

/-- Membership through stable insertion. -/
theorem insertByLen_mem (x l : List UploadTask) (xs : List (List UploadTask)) :
    l ∈ insertByLen x xs → l = x ∨ l ∈ xs := by
  induction xs with
  | nil => intro h; simp [insertByLen] at h; exact Or.inl h
  | cons y ys ih =>
    intro h
    simp only [insertByLen] at h
    by_cases hc : y.length < x.length
    · rw [if_pos hc] at h
      simp only [List.mem_cons] at h
      rcases h with rfl | h
      · exact Or.inr (List.mem_cons_self _ _)
      · rcases ih h with h1 | h1
        · exact Or.inl h1
        · exact Or.inr (List.mem_cons_of_mem _ h1)
    · rw [if_neg hc] at h
      simp only [List.mem_cons] at h
      rcases h with rfl | h
      · exact Or.inl rfl
      · exact Or.inr (List.mem_cons.mpr h)

/-- Membership through the length sort. -/
theorem sortByLen_mem (xs : List (List UploadTask)) (l : List UploadTask) :
    l ∈ sortByLen xs → l ∈ xs := by
  induction xs with
  | nil => intro h; simp [sortByLen] at h
  | cons x ys ih =>
    intro h
    simp only [sortByLen] at h
    rcases insertByLen_mem x l (sortByLen ys) h with rfl | h1
    · exact List.mem_cons_self _ _
    · exact List.mem_cons_of_mem _ (ih h1)

/-- Every per-node list kept by the planner loop is the task list of
some non-skipped node at or past the running client index. -/
theorem perNodeTaskLists_shape (gfi : Nat → Option FileInfoLite)
    (startSegmentIndex endSegmentIndex taskSize txSeq : Int) :
    ∀ (cfgs : List ShardConfig) (k : Nat) (L : List UploadTask),
      L ∈ perNodeTaskLists gfi startSegmentIndex endSegmentIndex taskSize txSeq k cfgs →
      ∃ (c : Nat) (cfg : ShardConfig), k ≤ c ∧ nodeSkipped gfi c = false ∧
        L = nodeTasks c cfg startSegmentIndex endSegmentIndex taskSize txSeq ∧ L ≠ [] := by
  intro cfgs
  induction cfgs with
  | nil => intro k L hL; simp [perNodeTaskLists] at hL
  | cons cfg rest ih =>
    intro k L hL
    simp only [perNodeTaskLists] at hL
    by_cases hskip : nodeSkipped gfi k = true
    · rw [if_pos hskip] at hL
      obtain ⟨c, cf, hk, hns, hsh, hne⟩ := ih (k + 1) L hL
      exact ⟨c, cf, by omega, hns, hsh, hne⟩
    · rw [if_neg hskip] at hL
      by_cases hemp :
          (nodeTasks k cfg startSegmentIndex endSegmentIndex taskSize txSeq).isEmpty = true
      · rw [if_pos hemp] at hL
        obtain ⟨c, cf, hk, hns, hsh, hne⟩ := ih (k + 1) L hL
        exact ⟨c, cf, by omega, hns, hsh, hne⟩
      · rw [if_neg hemp] at hL
        simp only [List.mem_cons] at hL
        rcases hL with rfl | hL
        · refine ⟨k, cfg, le_refl k, by simpa using hskip, rfl, ?_⟩
          simpa [List.isEmpty_iff] using hemp
        · obtain ⟨c, cf, hk, hns, hsh, hne⟩ := ih (k + 1) L hL
          exact ⟨c, cf, by omega, hns, hsh, hne⟩

/-- All tasks of one node's list carry that node's client index. -/
theorem nodeTasks_client (c : Nat) (cfg : ShardConfig)
    (startSegmentIndex endSegmentIndex taskSize txSeq : Int) :
    ∀ a ∈ nodeTasks c cfg startSegmentIndex endSegmentIndex taskSize txSeq,
      a.clientIndex = c := by
  intro a ha
  simp only [nodeTasks, List.mem_map] at ha
  obtain ⟨s, _, rfl⟩ := ha
  rfl

/-- Claim C5: if a node's file-info lookup reports `finalized = true`,
no task in the flat list returned by `splitTasks` targets that node's
client index. -/
theorem splitTasks_skips_finalized (gfi : Nat → Option FileInfoLite)
    (cfgs : List ShardConfig)
    (startSegmentIndex endSegmentIndex taskSize txSeq : Int) (i : Nat)
    (info : FileInfoLite) (hi : gfi i = some info) (hfin : info.finalized = true) :
    ∀ a ∈ splitTasks gfi cfgs startSegmentIndex endSegmentIndex taskSize txSeq,
      a.clientIndex ≠ i := by
  intro a ha hcontra
  simp only [splitTasks] at ha
  by_cases hemp :
      (perNodeTaskLists gfi startSegmentIndex endSegmentIndex taskSize txSeq 0 cfgs).isEmpty = true
  · rw [if_pos hemp] at ha; simp at ha
  · rw [if_neg hemp] at ha
    obtain ⟨l, hl, hal⟩ := interleave_mem _ a ha
    have hl2 := sortByLen_mem _ l hl
    obtain ⟨c, cf, _, hns, hsh, _⟩ :=
      perNodeTaskLists_shape gfi startSegmentIndex endSegmentIndex taskSize txSeq cfgs 0 l hl2
    have hc : a.clientIndex = c := by
      subst hsh
      exact nodeTasks_client c cf startSegmentIndex endSegmentIndex taskSize txSeq a hal
    have hci : c = i := by omega
    subst hci
    have hskip : nodeSkipped gfi c = true := by simp [nodeSkipped, hi, hfin]
    rw [hskip] at hns
    exact Bool.noConfusion hns

/-- Witness for `splitTasks_skips_finalized`: node 1 reports a
finalized file, and no produced task targets client index 1. -/
theorem splitTasks_skips_finalized_witness :
    (fun j => if j = 1 then some (⟨true⟩ : FileInfoLite) else none) 1 = some ⟨true⟩ ∧
    ∀ a ∈ splitTasks (fun j => if j = 1 then some ⟨true⟩ else none)
        [⟨0, 1⟩, ⟨0, 1⟩] 0 1 1 0,
      a.clientIndex ≠ 1 :=
  ⟨rfl,
   splitTasks_skips_finalized (fun j => if j = 1 then some ⟨true⟩ else none)
     [⟨0, 1⟩, ⟨0, 1⟩] 0 1 1 0 1 ⟨true⟩ rfl rfl⟩

/-- Stable insertion permutes: inserting then reading off is a
permutation of consing. -/
theorem insertByLen_perm (x : List UploadTask) (xs : List (List UploadTask)) :
    (insertByLen x xs).Perm (x :: xs) := by
  induction xs with
  | nil => exact List.Perm.refl _
  | cons y ys ih =>
    simp only [insertByLen]
    by_cases hc : y.length < x.length
    · rw [if_pos hc]
      exact (ih.cons y).trans (List.Perm.swap x y ys)
    · rw [if_neg hc]

/-- The length sort is a permutation. -/
theorem sortByLen_perm (xs : List (List UploadTask)) : (sortByLen xs).Perm xs := by
  induction xs with
  | nil => exact List.Perm.refl _
  | cons x ys ih =>
    simp only [sortByLen]
    exact (insertByLen_perm x (sortByLen ys)).trans (ih.cons x)

/-- Stable insertion preserves ordering by length. -/
theorem insertByLen_sorted (x : List UploadTask) (xs : List (List UploadTask))
    (h : xs.Pairwise (fun a b => a.length ≤ b.length)) :
    (insertByLen x xs).Pairwise (fun a b => a.length ≤ b.length) := by
  induction xs with
  | nil => simp [insertByLen]
  | cons y ys ih =>
    rw [List.pairwise_cons] at h
    obtain ⟨hy, hys⟩ := h
    simp only [insertByLen]
    by_cases hc : y.length < x.length
    · rw [if_pos hc, List.pairwise_cons]
      refine ⟨?_, ih hys⟩
      intro z hz
      rcases insertByLen_mem x z ys hz with rfl | hz2
      · omega
      · exact hy z hz2
    · rw [if_neg hc, List.pairwise_cons]
      refine ⟨?_, List.pairwise_cons.mpr ⟨hy, hys⟩⟩
      intro z hz
      rcases List.mem_cons.mp hz with rfl | hz2
      · omega
      · have := hy z hz2
        omega

/-- The sorted per-node lists are ascending by length. -/
theorem sortByLen_sorted (xs : List (List UploadTask)) :
    (sortByLen xs).Pairwise (fun a b => a.length ≤ b.length) := by
  induction xs with
  | nil => simp [sortByLen]
  | cons x ys ih =>
    simp only [sortByLen]
    exact insertByLen_sorted x (sortByLen ys) ih

/-- In a length-sorted list of lists the head is shortest. -/
theorem sorted_head_min (S : List (List UploadTask))
    (h : S.Pairwise (fun a b => a.length ≤ b.length)) :
    ∀ l ∈ S, (S.headD []).length ≤ l.length := by
  cases S with
  | nil => intro l hl; simp at hl
  | cons l0 rest =>
    intro l hl
    rcases List.mem_cons.mp hl with rfl | h2
    · simp
    · simpa using (List.pairwise_cons.mp h).1 l h2

/-- When no list is exhausted, an inner pass reads one task from every
per-node list. -/
theorem innerPass_full (ls : List (List UploadTask)) (t : Nat)
    (h : ∀ l ∈ ls, t < l.length) :
    innerPass ls t = ls.filterMap (fun l => l[t]?) := by
  induction ls with
  | nil => rfl
  | cons l rest ih =>
    have hl : t < l.length := h l (List.mem_cons_self _ _)
    simp only [innerPass, List.filterMap_cons, List.getElem?_eq_getElem hl,
      ih (fun l2 h2 => h l2 (List.mem_cons_of_mem _ h2))]

/-- A pointwise sublist of blocks gives a sublist of the
concatenations. -/
theorem flatMap_sublist {α β : Type} (ts : List α) (g f : α → List β)
    (h : ∀ t ∈ ts, (g t).Sublist (f t)) :
    (ts.flatMap g).Sublist (ts.flatMap f) := by
  induction ts with
  | nil => simp
  | cons t rest ih =>
    simp only [List.flatMap_cons]
    exact (h t (List.mem_cons_self _ _)).append
      (ih (fun x hx => h x (List.mem_cons_of_mem _ hx)))

/-- Reading positions `0..m-1` of a list collects its `m`-prefix. -/
theorem filterMap_range_getElem {β : Type} (l : List β) (m : Nat) :
    (List.range m).filterMap (fun t => l[t]?) = l.take m := by
  induction m with
  | zero => simp
  | succ n ih =>
    rw [List.range_succ, List.filterMap_append, ih, List.take_succ]
    cases h : l[n]? <;> simp [h]

/-- Unfolding `filterMap` as a concatenation of option contents. -/
theorem filterMap_eq_flatMap_toList {α β : Type} (ts : List α) (g : α → Option β) :
    ts.filterMap g = ts.flatMap (fun x => (g x).toList) := by
  induction ts with
  | nil => rfl
  | cons t rest ih =>
    cases h : g t <;> simp [List.filterMap_cons, List.flatMap_cons, h, ih]

/-- Congruence for `flatMap` over a common list. -/
theorem flatMap_congr_mem {α β : Type} (ts : List α) (f g : α → List β)
    (h : ∀ t ∈ ts, f t = g t) : ts.flatMap f = ts.flatMap g := by
  induction ts with
  | nil => rfl
  | cons t rest ih =>
    simp only [List.flatMap_cons]
    rw [h t (List.mem_cons_self _ _), ih (fun x hx => h x (List.mem_cons_of_mem _ hx))]

/-- A full inner pass yields one task per per-node list. -/
theorem filterMap_getElem_length (ls : List (List UploadTask)) (t : Nat)
    (h : ∀ l ∈ ls, t < l.length) :
    (ls.filterMap (fun l => l[t]?)).length = ls.length := by
  induction ls with
  | nil => rfl
  | cons l rest ih =>
    have hl : t < l.length := h l (List.mem_cons_self _ _)
    simp [List.filterMap_cons, List.getElem?_eq_getElem hl,
      ih (fun x hx => h x (List.mem_cons_of_mem _ hx))]

/-- Every index the shard walk visits is at least its start. -/
theorem taskSegIndicesAux_lb (endSegmentIndex step : Int) :
    ∀ (fuel : Nat) (s : Int),
      ∀ x ∈ taskSegIndicesAux endSegmentIndex step fuel s, s ≤ x := by
  intro fuel
  induction fuel with
  | zero => intro s x hx; simp [taskSegIndicesAux] at hx
  | succ n ih =>
    intro s x hx
    simp only [taskSegIndicesAux] at hx
    by_cases hc : s ≤ endSegmentIndex ∧ 0 < step
    · rw [if_pos hc] at hx
      rcases List.mem_cons.mp hx with rfl | hx2
      · omega
      · have := ih (s + step) x hx2
        omega
    · rw [if_neg hc] at hx
      simp at hx

/-- The shard walk is strictly increasing. -/
theorem taskSegIndicesAux_sorted (endSegmentIndex step : Int) :
    ∀ (fuel : Nat) (s : Int),
      (taskSegIndicesAux endSegmentIndex step fuel s).Pairwise (· < ·) := by
  intro fuel
  induction fuel with
  | zero => intro s; simp [taskSegIndicesAux]
  | succ n ih =>
    intro s
    simp only [taskSegIndicesAux]
    by_cases hc : s ≤ endSegmentIndex ∧ 0 < step
    · rw [if_pos hc, List.pairwise_cons]
      refine ⟨?_, ih (s + step)⟩
      intro x hx
      have := taskSegIndicesAux_lb endSegmentIndex step n (s + step) x hx
      omega
    · rw [if_neg hc]; simp

/-- Within one node's task list, segment indices strictly increase. -/
theorem nodeTasks_seg_sorted (c : Nat) (cfg : ShardConfig)
    (startSegmentIndex endSegmentIndex taskSize txSeq : Int) :
    (nodeTasks c cfg startSegmentIndex endSegmentIndex taskSize txSeq).Pairwise
      (fun a b => a.segIndex < b.segIndex) := by
  unfold nodeTasks taskSegIndices
  rw [List.pairwise_map]
  apply List.Pairwise.imp ?_
    (taskSegIndicesAux_sorted endSegmentIndex (cfg.numShard * taskSize) _ _)
  intro s1 s2 h
  exact show s1 - startSegmentIndex < s2 - startSegmentIndex by omega

/-- Distinct kept per-node lists carry strictly increasing client
indices. -/
theorem perNodeTaskLists_clients_lt (gfi : Nat → Option FileInfoLite)
    (startSegmentIndex endSegmentIndex taskSize txSeq : Int) :
    ∀ (cfgs : List ShardConfig) (k : Nat),
      (perNodeTaskLists gfi startSegmentIndex endSegmentIndex taskSize txSeq k cfgs).Pairwise
        (fun L1 L2 => ∀ a ∈ L1, ∀ b ∈ L2, a.clientIndex < b.clientIndex) := by
  intro cfgs
  induction cfgs with
  | nil => intro k; simp [perNodeTaskLists]
  | cons cfg rest ih =>
    intro k
    simp only [perNodeTaskLists]
    by_cases hskip : nodeSkipped gfi k = true
    · rw [if_pos hskip]; exact ih (k + 1)
    · rw [if_neg hskip]
      by_cases hemp :
          (nodeTasks k cfg startSegmentIndex endSegmentIndex taskSize txSeq).isEmpty = true
      · rw [if_pos hemp]; exact ih (k + 1)
      · rw [if_neg hemp, List.pairwise_cons]
        refine ⟨?_, ih (k + 1)⟩
        intro L2 hL2 a ha b hb
        have hac := nodeTasks_client k cfg _ _ _ _ a ha
        obtain ⟨c, cf, hkc, _, rfl, _⟩ :=
          perNodeTaskLists_shape gfi _ _ _ _ rest (k + 1) L2 hL2
        have hbc := nodeTasks_client c cf _ _ _ _ b hb
        omega

/-- Claim C1, counterexample: with nodes `numShard = 1` and
`shardId 0 of numShard 2` over segments 0..1 (taskSize 1), the task
`{clientIndex 0, segIndex 1}` is produced by the per-node loop but is
missing from the flat list `splitTasks` returns: the outer round-robin
loop is bounded by the shortest per-node list, dropping later tasks of
longer lists. -/
theorem splitTasks_drops_tasks :
    (⟨0, 1, 1, 1, 0⟩ : UploadTask) ∈
        (perNodeTaskLists (fun _ => none) 0 1 1 0 0 [⟨0, 1⟩, ⟨0, 2⟩]).flatten ∧
    (⟨0, 1, 1, 1, 0⟩ : UploadTask) ∉
        splitTasks (fun _ => none) [⟨0, 1⟩, ⟨0, 2⟩] 0 1 1 0 := by
  decide

/-- Claim C1, amended: when the per-node loop yields a nonempty
collection `P` of per-node task lists, let `S` be `P` sorted stably
ascending by length and `m` the length of `S`'s head (the shortest
list).  The flat list `splitTasks` returns is exactly the round-robin
interleaving of the first `m` tasks of each list of `S`: `S` is a
permutation of `P`; every list of `S` has at least `m` tasks; the flat
list equals, for `taskIndex < m`, the `taskIndex`-th task of each list
of `S` in order; each list's `m`-prefix occurs as a subsequence of the
flat list (per-node relative order preserved); the flat list has no
duplicates (each kept task appears exactly once); and its length is
`m * S.length` — tasks of longer per-node lists beyond index `m - 1`
are dropped. -/
theorem splitTasks_round_robin_shortest (gfi : Nat → Option FileInfoLite)
    (cfgs : List ShardConfig) (startSegmentIndex endSegmentIndex taskSize txSeq : Int)
    (P S : List (List UploadTask)) (m : Nat)
    (hPdef : P = perNodeTaskLists gfi startSegmentIndex endSegmentIndex taskSize txSeq 0 cfgs)
    (hSdef : S = sortByLen P)
    (hmdef : m = (S.headD []).length)
    (hP : P ≠ []) :
    S.Perm P ∧
    (∀ l ∈ S, m ≤ l.length) ∧
    splitTasks gfi cfgs startSegmentIndex endSegmentIndex taskSize txSeq =
      (List.range m).flatMap (fun t => S.filterMap (fun l => l[t]?)) ∧
    (∀ l ∈ S,
      (l.take m).Sublist (splitTasks gfi cfgs startSegmentIndex endSegmentIndex taskSize txSeq)) ∧
    (splitTasks gfi cfgs startSegmentIndex endSegmentIndex taskSize txSeq).Nodup ∧
    (splitTasks gfi cfgs startSegmentIndex endSegmentIndex taskSize txSeq).length =
      m * S.length := by
  have hsorted : S.Pairwise (fun a b => a.length ≤ b.length) := by
    rw [hSdef]; exact sortByLen_sorted P
  have hperm : S.Perm P := by rw [hSdef]; exact sortByLen_perm P
  have hmin : ∀ l ∈ S, m ≤ l.length := by
    rw [hmdef]; exact sorted_head_min S hsorted
  have hSne : S ≠ [] := by
    intro h
    apply hP
    have hl := hperm.length_eq
    rw [h] at hl
    exact List.length_eq_zero.mp hl.symm
  obtain ⟨l0, rest, hS0⟩ : ∃ l0 rest, S = l0 :: rest := by
    cases hS : S with
    | nil => exact absurd hS hSne
    | cons a b => exact ⟨a, b, rfl⟩
  have hPempty : P.isEmpty = false := List.isEmpty_eq_false.mpr hP
  have hm0 : m = l0.length := by rw [hmdef, hS0]; rfl
  have hflat : splitTasks gfi cfgs startSegmentIndex endSegmentIndex taskSize txSeq =
      (List.range m).flatMap (fun t => S.filterMap (fun l => l[t]?)) := by
    simp only [splitTasks]
    rw [← hPdef]
    have hnotempty : ¬ (P.isEmpty = true) := by
      rw [hPempty]; exact Bool.false_ne_true
    rw [if_neg hnotempty, ← hSdef, hS0]
    simp only [interleave]
    rw [← hm0]
    apply flatMap_congr_mem
    intro t ht
    apply innerPass_full
    intro l hl
    have hml : m ≤ l.length := hmin l (hS0 ▸ hl)
    have htm : t < m := List.mem_range.mp ht
    omega
  refine ⟨hperm, hmin, hflat, ?_, ?_, ?_⟩
  · intro l hl
    rw [hflat]
    have h1 : l.take m = (List.range m).flatMap (fun t => (l[t]?).toList) := by
      rw [← filterMap_range_getElem l m, filterMap_eq_flatMap_toList]
    rw [h1]
    apply flatMap_sublist
    intro t ht
    have htm : t < m := List.mem_range.mp ht
    have hlm : t < l.length := by
      have := hmin l hl
      omega
    rw [List.getElem?_eq_getElem hlm]
    simp only [Option.toList_some]
    rw [List.singleton_sublist]
    exact List.mem_filterMap.mpr ⟨l, hl, List.getElem?_eq_getElem hlm⟩
  · rw [hflat]
    have hshape : ∀ l ∈ S, ∃ (c : Nat) (cfg : ShardConfig),
        l = nodeTasks c cfg startSegmentIndex endSegmentIndex taskSize txSeq := by
      intro l hl
      have hlP : l ∈ P := hperm.mem_iff.mp hl
      rw [hPdef] at hlP
      obtain ⟨c, cf, _, _, hsh, _⟩ :=
        perNodeTaskLists_shape gfi _ _ _ _ cfgs 0 l hlP
      exact ⟨c, cf, hsh⟩
    have hseg : ∀ l ∈ S, l.Pairwise (fun a b => a.segIndex < b.segIndex) := by
      intro l hl
      obtain ⟨c, cf, rfl⟩ := hshape l hl
      exact nodeTasks_seg_sorted c cf _ _ _ _
    have hsym : ∀ {x y : List UploadTask},
        (∀ a ∈ x, ∀ b ∈ y, a.clientIndex ≠ b.clientIndex) →
        (∀ a ∈ y, ∀ b ∈ x, a.clientIndex ≠ b.clientIndex) :=
      fun h a ha b hb => (h b hb a ha).symm
    have hRne : S.Pairwise
        (fun L1 L2 => ∀ a ∈ L1, ∀ b ∈ L2, a.clientIndex ≠ b.clientIndex) := by
      have hPne : P.Pairwise
          (fun L1 L2 => ∀ a ∈ L1, ∀ b ∈ L2, a.clientIndex ≠ b.clientIndex) := by
        rw [hPdef]
        exact (perNodeTaskLists_clients_lt gfi startSegmentIndex endSegmentIndex
          taskSize txSeq cfgs 0).imp
          (fun h a ha b hb => by have := h a ha b hb; omega)
      exact (hperm.pairwise_iff hsym).mpr hPne
    rw [List.nodup_flatMap]
    constructor
    · intro t _
      exact List.Pairwise.filterMap (fun l => l[t]?)
        (fun l1 l2 hR b hb b2 hb2 => fun heq =>
          (hR b (List.getElem?_mem (Option.mem_def.mp hb)) b2
            (List.getElem?_mem (Option.mem_def.mp hb2))) (by rw [heq]))
        hRne
    · rw [List.pairwise_iff_getElem]
      intro i j hi hj hij
      simp only [List.length_range] at hi hj
      simp only [List.getElem_range, Function.onFun]
      intro a ha1 ha2
      obtain ⟨l1, hl1, he1⟩ := List.mem_filterMap.mp ha1
      obtain ⟨l2, hl2, he2⟩ := List.mem_filterMap.mp ha2
      by_cases hll : l1 = l2
      · subst hll
        have hil : i < l1.length := by
          have := hmin l1 hl1
          omega
        have hjl : j < l1.length := by
          have := hmin l1 hl1
          omega
        have hseg1 := hseg l1 hl1
        rw [List.pairwise_iff_getElem] at hseg1
        have hlt := hseg1 i j hil hjl hij
        rw [List.getElem?_eq_getElem hil] at he1
        rw [List.getElem?_eq_getElem hjl] at he2
        injection he1 with he1'
        injection he2 with he2'
        rw [he1', he2'] at hlt
        exact lt_irrefl _ hlt
      · have hR := List.Pairwise.forall (fun x y h => hsym h) hRne hl1 hl2 hll
        exact hR a (List.getElem?_mem he1) a (List.getElem?_mem he2) rfl
  · rw [hflat, List.length_flatMap]
    have hmap : (List.range m).map (List.length ∘ fun t => S.filterMap (fun l => l[t]?)) =
        List.replicate m S.length := by
      have hcongr : ∀ t ∈ List.range m,
          (List.length ∘ fun t => S.filterMap (fun l => l[t]?)) t = S.length := by
        intro t ht
        have htm : t < m := List.mem_range.mp ht
        exact filterMap_getElem_length S t (fun l hl => by have := hmin l hl; omega)
      rw [List.map_congr_left hcongr]
      simp [List.eq_replicate_iff, List.length_range]
    rw [hmap, List.sum_replicate, smul_eq_mul]

/-- Witness for `splitTasks_round_robin_shortest` at the two-node,
two-segment input: the flat list is the one-round interleaving of the
sorted per-node lists. -/
theorem splitTasks_round_robin_shortest_witness :
    splitTasks (fun _ => none) [⟨0, 1⟩, ⟨0, 2⟩] 0 1 1 0 =
      (List.range 1).flatMap (fun t =>
        (sortByLen (perNodeTaskLists (fun _ => none) 0 1 1 0 0
          [⟨0, 1⟩, ⟨0, 2⟩])).filterMap (fun l => l[t]?)) :=
  (splitTasks_round_robin_shortest (fun _ => none) [⟨0, 1⟩, ⟨0, 2⟩] 0 1 1 0
    _ _ 1 rfl rfl (by decide) (by decide)).2.2.1
